import Mathlib

/-!
Verification of the structural pattern-matching engine in
`iree-dialects/Transforms/TransformMatchers.{h,cpp}`.

The matcher engine is shallowly embedded: MLIR operations, values and uses
become an abstract `Graph` of natural-number identifiers supplying exactly the
capability interface the matcher reads (kind queries, iteration-space and
operand introspection, use lists, region ancestry, the tileable-op walk).
Mutable matcher state (the captured-op slot of every matcher object and the
scalar capture cells bound via `CaptureStaticValue`) becomes an explicit
`MatchState` threaded through evaluation.
-/

/-- `utils::IteratorType`. -/
inductive IterTy where
  | parallel
  | reduction
deriving DecidableEq, Repr

/-- `transform_ext::ShapeKind`. -/
inductive ShapeKind where
  | Static
  | Dynamic
deriving DecidableEq, Repr

/-- Classification of an operand's indexing map, as queried through
`isPermutation` / `isProjectedPermutation`. A permutation is also a projected
permutation. -/
inductive MapKind where
  | perm
  | projPerm
  | other
deriving DecidableEq, Repr

def MapKind.isPerm : MapKind → Bool
  | .perm => true
  | _ => false

def MapKind.isProj : MapKind → Bool
  | .perm => true
  | .projPerm => true
  | .other => false

/-- Operation tags relevant to subset traversal: `scf::ForeachThreadOp`,
`tensor::ExtractSliceOp`, or anything else. -/
inductive OpTag where
  | foreachThread
  | extractSlice
  | other
deriving DecidableEq, Repr

/-- One use of a value: the owning operation and the operand slot index,
identifying the `OpOperand`. -/
structure Use where
  owner : Nat
  idx : Nat
deriving DecidableEq, Repr

/-- Per-operation data read by the matcher: `LinalgOp` interface presence,
op kind, `getStaticLoopRanges`, `getIteratorTypesArray`, DPS input/init
operands (value ids), result values, and indexing-map classifications. -/
structure OpData where
  isLinalg : Bool := false
  kindTag : Nat := 0
  loopRanges : List Int := []
  iterTypes : List IterTy := []
  inputOperands : List Nat := []
  initOperands : List Nat := []
  results : List Nat := []
  inputMaps : List MapKind := []
  initMaps : List MapKind := []

/-- The host-IR capability interface consumed by the matcher engine (spec
section 6): node/value/use graph queries, subset-op structure, scope ancestry
and the tileable-op walk. `singleCombinerOk` abstracts the external
`mlir::matchReduction` + `hasSingleElement` check; `valElemBitWidth` abstracts
the shaped-type element bit-width query. `fuel` bounds the subset-traversal
loops, which the C++ runs without any bound. -/
structure Graph where
  op : Nat → OpData
  valDef : Nat → Option Nat
  valParentOp : Nat → Option Nat
  uses : Nat → List Use
  tag : Nat → OpTag
  foreachTiedVal : Nat → Nat → Nat
  foreachOutArgs : Nat → List Nat
  foreachTiedIdx : Nat → Nat → Nat
  sliceSource : Nat → Nat
  sliceResult : Nat → Nat
  valElemBitWidth : Nat → Option Nat
  singleCombinerOk : Nat → Nat → Bool
  parentOfType : Nat → Nat → Option Nat
  tilableIn : Nat → List Nat
  fuel : Nat

/-- Mutable matcher state: captured-op slot of every matcher object
(`StructuredOpMatcher::captured`, null when `none`) and the scalar capture
cells bound through `CaptureStaticValue<int64_t>`. -/
structure MatchState where
  slots : Nat → Option Nat
  cells : Nat → Int

theorem MatchState.ext {s t : MatchState} (h1 : s.slots = t.slots)
    (h2 : s.cells = t.cells) : s = t := by
  cases s; cases t; simp_all

def updSlot (s : MatchState) (i : Nat) (v : Option Nat) : MatchState :=
  { s with slots := Function.update s.slots i v }

def writeCell (s : MatchState) (i : Nat) (v : Int) : MatchState :=
  { s with cells := Function.update s.cells i v }

/-- `ShapedType::kDynamic` (the minimal int64_t). -/
def kDynamic : Int := -(2 ^ 63)

/-- `ShapedType::isDynamic`. -/
def isDynamic (n : Int) : Bool := n = kDynamic

/-- Negative-index resolution used throughout the matcher:
`dimension >= 0 ? dimension : rank + dimension`. -/
def resolvePos (pos : Int) (n : Nat) : Int :=
  if pos ≥ 0 then pos else (n : Int) + pos

/-- `StructuredOpMatcher::dim(SmallVector<int64_t>&&, ShapeKind)`
(TransformMatchers.cpp lines 54-73). Each listed dimension is resolved
against `shape.size()` with an explicit `< 0 || >= size` bounds check that
fails the predicate. -/
def dimShapeCheck (shape : List Int) (dims : List Int) (kind : ShapeKind) : Bool :=
  dims.all fun d =>
    let t := resolvePos d shape.length
    if t < 0 ∨ t ≥ (shape.length : Int) then false
    else
      match shape.get? t.toNat with
      | none => false
      | some v => xor (isDynamic v) (kind = ShapeKind.Static)

/-- `StructuredOpMatcher::dim(AllDims, ShapeKind)` (lines 75-84). -/
def allDimsShapeCheck (shape : List Int) (kind : ShapeKind) : Bool :=
  shape.all fun v => xor (isDynamic v) (kind = ShapeKind.Static)

/-- `StructuredOpMatcher::dim(SmallVector<int64_t>&&, utils::IteratorType)`
(lines 86-106). Same in-bounds discipline as the shape variant. -/
def dimIterCheck (iterTypes : List IterTy) (dims : List Int) (kind : IterTy) : Bool :=
  dims.all fun d =>
    let t := resolvePos d iterTypes.length
    if t < 0 ∨ t ≥ (iterTypes.length : Int) then false
    else
      match iterTypes.get? t.toNat with
      | none => false
      | some ty => ty = kind

/-- `StructuredOpMatcher::dim(AllDimsExcept&&, utils::IteratorType)`
(lines 112-134): every enumerated dimension whose (negative-resolved) index is
not excluded must have the given iterator type. -/
def dimAllDimsExceptIterPred (iterTypes : List IterTy) (excl : List Int)
    (kind : IterTy) : Bool :=
  let excludedDims := excl.map fun d => resolvePos d iterTypes.length
  iterTypes.enum.all fun it =>
    excludedDims.contains (it.1 : Int) || it.2 = kind

/-- `StructuredOpMatcher::dim(AllDims, utils::IteratorType)` (lines 107-110)
delegates to the `AllDimsExcept` variant with an empty exclusion list. -/
def dimAllDimsIterPred (iterTypes : List IterTy) (kind : IterTy) : Bool :=
  dimAllDimsExceptIterPred iterTypes [] kind

/-- Result of the C++ `dim(int64_t, DivisibleBy)` / `dim(int64_t,
CaptureStaticValue)` body on a possibly negative resolved index. `oob` marks
the paths where the C++ indexes `getStaticLoopRanges()` out of bounds (only a
`transformedDimension >= rank` check guards the access, so a negative resolved
index slips through). -/
inductive DimCapResult where
  | oob
  | fail
  | capture (v : Int)
deriving DecidableEq, Repr

/-- `StructuredOpMatcher::dim(int64_t, DivisibleBy)` (lines 136-150). `rank`
is `getNumLoops()`, `shape` is `getStaticLoopRanges()`; the only bounds check
is `transformedDimension >= rank`, so a negative resolved index reaches the
vector access (`none` result). -/
def dimDivisibleByCode (rank : Nat) (shape : List Int) (d k : Int) : Option Bool :=
  let t := resolvePos d rank
  if t ≥ (rank : Int) then some false
  else
    match (if 0 ≤ t then shape.get? t.toNat else none) with
    | none => none
    | some size => some (!isDynamic size && size % k = 0)

/-- `StructuredOpMatcher::dim(int64_t, CaptureStaticValue<int64_t>)`
(lines 164-178). Same missing negative-index guard as `DivisibleBy`. -/
def dimCaptureCode (rank : Nat) (shape : List Int) (d : Int) : DimCapResult :=
  let t := resolvePos d rank
  if t ≥ (rank : Int) then .fail
  else
    match (if 0 ≤ t then shape.get? t.toNat else none) with
    | none => .oob
    | some v => .capture v

/-- The state-free predicate bodies attachable to a `StructuredOpMatcher`. -/
inductive SimplePred where
  | isaOp (kinds : List Nat)
  | rankGE (n : Nat)
  | rankLE (n : Nat)
  | dimsShape (dims : List Int) (kind : ShapeKind)
  | allDimsShape (kind : ShapeKind)
  | dimsIter (dims : List Int) (kind : IterTy)
  | allDimsExceptIter (excl : List Int) (kind : IterTy)
  | dimDivisible (d : Int) (k : Int)
  | inputNum (n : Nat)
  | outputNum (n : Nat)
  | inputAllPerm
  | inputAllProj
  | outputAllPerm
  | outputAllProj
  | outputBitWidth (pos : Int) (w : Nat)
  | outputSingleCombiner (pos : Int)
deriving Repr

/-- Evaluates a state-free predicate on a candidate op, mirroring the
corresponding C++ lambda bodies. For `outputBitWidth` and
`outputSingleCombiner` the position is resolved against `getNumDpsInits`
(lines 314-346); a negative resolved position would index out of bounds in
C++ and is modelled as failure. -/
def evalSimple (g : Graph) (p : SimplePred) (opId : Nat) : Bool :=
  match p with
  | .isaOp kinds => kinds.contains (g.op opId).kindTag
  | .rankGE n => (g.op opId).iterTypes.length ≥ n
  | .rankLE n => (g.op opId).iterTypes.length ≤ n
  | .dimsShape dims kind => dimShapeCheck (g.op opId).loopRanges dims kind
  | .allDimsShape kind => allDimsShapeCheck (g.op opId).loopRanges kind
  | .dimsIter dims kind => dimIterCheck (g.op opId).iterTypes dims kind
  | .allDimsExceptIter excl kind =>
      dimAllDimsExceptIterPred (g.op opId).iterTypes excl kind
  | .dimDivisible d k =>
      (dimDivisibleByCode (g.op opId).iterTypes.length (g.op opId).loopRanges d k).getD false
  | .inputNum n => (g.op opId).inputOperands.length = n
  | .outputNum n => (g.op opId).initOperands.length = n
  | .inputAllPerm => (g.op opId).inputMaps.all MapKind.isPerm
  | .inputAllProj => (g.op opId).inputMaps.all MapKind.isProj
  | .outputAllPerm => (g.op opId).initMaps.all MapKind.isPerm
  | .outputAllProj => (g.op opId).initMaps.all MapKind.isProj
  | .outputBitWidth pos w =>
      let inits := (g.op opId).initOperands
      let t := resolvePos pos inits.length
      if t ≥ (inits.length : Int) then false
      else
        match (if 0 ≤ t then inits.get? t.toNat else none) with
        | none => false
        | some v => g.valElemBitWidth v = some w
  | .outputSingleCombiner pos =>
      let inits := (g.op opId).initOperands
      let t := resolvePos pos inits.length
      if t ≥ (inits.length : Int) then false
      else
        match (if 0 ≤ t then inits.get? t.toNat else none) with
        | none => false
        | some _ => g.singleCombinerOk opId t.toNat

/-- `traverseSubsetsBackwards` (TransformMatchers.cpp lines 213-238): walk the
def chain, looking through `tensor.extract_slice` sources and through the tie
between a `scf.foreach_thread` output block argument and its op operand, until
a non-transparent defining op (or block parent op) is found. The C++ loop is
unbounded; `fuel` makes the embedding total, `none` meaning the loop did not
finish within the bound (or the block was detached, an assert in C++). -/
def traverseSubsetsBackwards (g : Graph) : Nat → Nat → Option Nat
  | 0, _ => none
  | fuel + 1, val =>
    match g.valDef val with
    | none =>
      match g.valParentOp val with
      | none => none
      | some blockOp =>
        if g.tag blockOp = OpTag.foreachThread then
          traverseSubsetsBackwards g fuel (g.foreachTiedVal blockOp val)
        else some blockOp
    | some op =>
      if g.tag op = OpTag.extractSlice then
        traverseSubsetsBackwards g fuel (g.sliceSource op)
      else some op

/-- The inner `for` loop of `traverseSubsetsForwardAnyUse` (lines 243-264):
iterate the uses of the value the loop started from, threading the reassigned
`val` variable; `Sum.inl` is an early `return user`, `Sum.inr` the value held
by `val` when the use list is exhausted. For a `scf.foreach_thread` user the
C++ looks for the first output block argument whose tied operand is *not*
this use (`getTiedOpOperand(bbarg) != &use`). -/
def forwardUses (g : Graph) : List Use → Nat → Sum Nat Nat
  | [], val => Sum.inr val
  | u :: us, _val =>
    let user := u.owner
    if g.tag user = OpTag.foreachThread then
      match (g.foreachOutArgs user).find? (fun b => g.foreachTiedIdx user b ≠ u.idx) with
      | none => Sum.inl user
      | some b => forwardUses g us b
    else if g.tag user = OpTag.extractSlice then
      forwardUses g us (g.sliceResult user)
    else Sum.inl user

/-- `traverseSubsetsForwardAnyUse` (lines 243-264): the outer `do`/`while`
loop, re-entering the use scan with the value left in `val`. Unbounded in
C++ (it never terminates on a value with no uses); bounded here by `fuel`. -/
def traverseSubsetsForwardAnyUse (g : Graph) : Nat → Nat → Option Nat
  | 0, _ => none
  | fuel + 1, val =>
    match forwardUses g (g.uses val) val with
    | Sum.inl op => some op
    | Sum.inr val' => traverseSubsetsForwardAnyUse g fuel val'

/-- `StructuredOpMatcher::checkAllTilableMatched` (lines 388-406): fails
without a parent; otherwise compares the tileable-op count of the parent's
walk with the size of the set holding the non-null captured ops of the
snapshotted matchers plus the candidate itself. -/
def checkAllTilableMatched (g : Graph) (parent : Option Nat) (opId : Nat)
    (capturedOps : List (Option Nat)) : Bool :=
  match parent with
  | none => false
  | some p =>
    let numTilableOps := (g.tilableIn p).length
    let matched := (opId :: capturedOps.filterMap id).dedup
    numTilableOps = matched.length

/-!
The matcher object model. A `StructuredOpMatcher` owns an ordered predicate
list, a captured-op slot (identified here by a slot id, standing for the
object's own storage), and — through its nested-matcher predicates — the
sub-matchers it composes. `allTilable` carries the snapshot of nested-matcher
slot ids that `allTilableOpsCaptured` copies from `nestedCapturingMatchers`
at attach time (TransformMatchers.h lines 314-322).
-/

mutual

inductive Matcher : Type where
  | mk (slot : Nat) (preds : MPreds)

inductive MPreds : Type where
  | nil
  | cons (p : MPred) (ps : MPreds)

inductive MPred : Type where
  | simple (f : SimplePred)
  | rankCapture (cell : Nat)
  | dimCapture (d : Int) (cell : Nat)
  | inputNested (pos : Int) (m : Matcher) (optional : Bool)
  | outputNested (pos : Int) (m : Matcher) (optional : Bool)
  | inputSubset (pos : Int) (m : Matcher)
  | outputSubset (pos : Int) (m : Matcher)
  | resultNested (pos : Int) (m : Matcher) (optional : Bool)
  | resultSubset (pos : Int) (m : Matcher) (optional : Bool)
  | allTilable (scopeKind : Nat) (snapshot : List Nat)

end

def Matcher.slot : Matcher → Nat
  | .mk s _ => s

def Matcher.preds : Matcher → MPreds
  | .mk _ ps => ps

/-- `StructuredOpMatcher::getCaptured`. -/
def getCaptured (m : Matcher) (s : MatchState) : Option Nat :=
  s.slots m.slot

/-- Shared position handling of the per-position predicates: resolve `pos`
against `arity` (`position >= 0 ? position : arity + position`), apply the
C++ bounds check `transformedPosition >= arity`, and fetch the operand/result
value at the resolved index from `operands`. `none` covers both the explicit
rejection and the negative resolved position, which in C++ reaches
`getDpsInputOperand`/`getDpsInitOperand`/`getResult` out of bounds. -/
def resolvedOperand (operands : List Nat) (arity : Nat) (pos : Int) : Option Nat :=
  let t := resolvePos pos arity
  if t ≥ (arity : Int) then none
  else if 0 ≤ t then operands.get? t.toNat else none

mutual

/-- `StructuredOpMatcher::match` (TransformMatchers.cpp lines 19-32): reject
non-`LinalgOp` candidates, run the predicates in registration order with
short-circuiting, and only on overall success store the candidate in the
captured slot. -/
def Matcher.matchOp (g : Graph) : Matcher → Nat → MatchState → Bool × MatchState
  | .mk slot preds, opId, s =>
    if (g.op opId).isLinalg then
      let r := runPreds g preds opId s
      if r.1 then (true, updSlot r.2 slot (some opId)) else (false, r.2)
    else (false, s)
termination_by m _ _ => (sizeOf m, 0)

/-- `llvm::all_of(predicates, ...)`: run predicates in order, short-circuiting
on the first failure, threading capture state. -/
def runPreds (g : Graph) : MPreds → Nat → MatchState → Bool × MatchState
  | .nil, _, s => (true, s)
  | .cons p ps, opId, s =>
    let r := runPred g p opId s
    if r.1 then runPreds g ps opId r.2 else (false, r.2)
termination_by ps _ _ => (sizeOf ps, 0)

/-- Evaluation of a single attached predicate. Branches returning `(false, s)`
on a negative resolved position mark paths that are out-of-bounds accesses in
the C++ (only `transformedPosition >= arity` guards the access). Note
`outputSubset` (cpp lines 348-366) resolves and bounds-checks its position
against `getNumDpsInputs` while indexing `getDpsInitOperand`, exactly as the
source does. -/
def runPred (g : Graph) : MPred → Nat → MatchState → Bool × MatchState
  | .simple f, opId, s => (evalSimple g f opId, s)
  | .rankCapture c, opId, s =>
      (true, writeCell s c ((g.op opId).iterTypes.length : Int))
  | .dimCapture d c, opId, s =>
      (match dimCaptureCode (g.op opId).iterTypes.length (g.op opId).loopRanges d with
       | .capture v => (true, writeCell s c v)
       | _ => (false, s))
  | .inputNested pos m opt, opId, s =>
      (match resolvedOperand (g.op opId).inputOperands
          (g.op opId).inputOperands.length pos with
       | none => (false, s)
       | some v =>
         match g.valDef v with
         | none => (opt, s)
         | some d =>
           let r := Matcher.matchOp g m d s
           (r.1 || opt, r.2))
  | .outputNested pos m opt, opId, s =>
      (match resolvedOperand (g.op opId).initOperands
          (g.op opId).initOperands.length pos with
       | none => (false, s)
       | some v =>
         match g.valDef v with
         | none => (opt, s)
         | some d =>
           let r := Matcher.matchOp g m d s
           (r.1 || opt, r.2))
  | .inputSubset pos m, opId, s =>
      (match resolvedOperand (g.op opId).inputOperands
          (g.op opId).inputOperands.length pos with
       | none => (false, s)
       | some v =>
         match traverseSubsetsBackwards g g.fuel v with
         | none => (false, s)
         | some producer => Matcher.matchOp g m producer s)
  | .outputSubset pos m, opId, s =>
      (match resolvedOperand (g.op opId).initOperands
          (g.op opId).inputOperands.length pos with
       | none => (false, s)
       | some v =>
         match traverseSubsetsBackwards g g.fuel v with
         | none => (false, s)
         | some producer => Matcher.matchOp g m producer s)
  | .resultNested pos m opt, opId, s =>
      (match resolvedOperand (g.op opId).results
          (g.op opId).results.length pos with
       | none => (false, s)
       | some v =>
         let r := runAnyOf g m ((g.uses v).map Use.owner) s
         (r.1 || opt, r.2))
  | .resultSubset pos m opt, opId, s =>
      (match resolvedOperand (g.op opId).results
          (g.op opId).results.length pos with
       | none => (false, s)
       | some v =>
         match traverseSubsetsForwardAnyUse g g.fuel v with
         | none => (false, s)
         | some user =>
           let r := Matcher.matchOp g m user s
           (r.1 || opt, r.2))
  | .allTilable scopeKind snapshot, opId, s =>
      (checkAllTilableMatched g (g.parentOfType opId scopeKind) opId
        (snapshot.map s.slots), s)
termination_by p _ _ => (sizeOf p, 0)

/-- `llvm::any_of(result.getUsers(), ...)` in `result(pos, HasAnyUse, T&,
OptionalMatch)`: run the nested matcher on each user in use order until one
matches; every run's capture side effects persist. -/
def runAnyOf (g : Graph) : Matcher → List Nat → MatchState → Bool × MatchState
  | _, [], s => (false, s)
  | m, u :: us, s =>
    let r := Matcher.matchOp g m u s
    if r.1 then (true, r.2) else runAnyOf g m us r.2
termination_by m us _ => (sizeOf m, 1 + sizeOf us)

end

mutual

/-- `StructuredOpMatcher::resetCapture` (TransformMatchers.h lines 441-445):
null out the own captured slot, then recursively reset every nested matcher
reachable through the nested-reference list. Scalar capture cells are not
touched. -/
def Matcher.resetCapture : Matcher → MatchState → MatchState
  | .mk slot preds, s => MPreds.resetNested preds (updSlot s slot none)
termination_by m _ => sizeOf m

def MPreds.resetNested : MPreds → MatchState → MatchState
  | .nil, s => s
  | .cons p ps, s => MPreds.resetNested ps (MPred.resetNested p s)
termination_by ps _ => sizeOf ps

def MPred.resetNested : MPred → MatchState → MatchState
  | .inputNested _ m _, s => Matcher.resetCapture m s
  | .outputNested _ m _, s => Matcher.resetCapture m s
  | .inputSubset _ m, s => Matcher.resetCapture m s
  | .outputSubset _ m, s => Matcher.resetCapture m s
  | .resultNested _ m _, s => Matcher.resetCapture m s
  | .resultSubset _ m _, s => Matcher.resetCapture m s
  | _, s => s
termination_by p _ => sizeOf p

end

mutual

/-- All captured-op slot ids of a matcher: its own plus, transitively, those
of every nested matcher (the set `resetCapture` clears). -/
def matcherSlots : Matcher → List Nat
  | .mk slot preds => slot :: predsSlots preds
termination_by m => sizeOf m

def predsSlots : MPreds → List Nat
  | .nil => []
  | .cons p ps => predSlots p ++ predsSlots ps
termination_by ps => sizeOf ps

def predSlots : MPred → List Nat
  | .inputNested _ m _ => matcherSlots m
  | .outputNested _ m _ => matcherSlots m
  | .inputSubset _ m => matcherSlots m
  | .outputSubset _ m => matcherSlots m
  | .resultNested _ m _ => matcherSlots m
  | .resultSubset _ m _ => matcherSlots m
  | _ => []
termination_by p => sizeOf p

end

mutual

/-- A matcher is pure when no predicate in it (transitively) is the
exhaustiveness predicate `allTilableOpsCaptured`: then nothing it evaluates
reads the mutable capture state. -/
def pureMatcher : Matcher → Bool
  | .mk _ preds => purePreds preds
termination_by m => sizeOf m

def purePreds : MPreds → Bool
  | .nil => true
  | .cons p ps => pureMPred p && purePreds ps
termination_by ps => sizeOf ps

def pureMPred : MPred → Bool
  | .simple _ => true
  | .rankCapture _ => true
  | .dimCapture _ _ => true
  | .inputNested _ m _ => pureMatcher m
  | .outputNested _ m _ => pureMatcher m
  | .inputSubset _ m => pureMatcher m
  | .outputSubset _ m => pureMatcher m
  | .resultNested _ m _ => pureMatcher m
  | .resultSubset _ m _ => pureMatcher m
  | .allTilable _ _ => false
termination_by p => sizeOf p

end

def MPreds.append : MPreds → MPreds → MPreds
  | .nil, qs => qs
  | .cons p ps, qs => .cons p (MPreds.append ps qs)

def MPred.isTilableCheck : MPred → Bool
  | .allTilable _ _ => true
  | _ => false

def MPred.snapshotOf : MPred → List Nat
  | .allTilable _ snap => snap
  | _ => []

/-- The well-formedness discipline documented on `allTilableOpsCaptured`
("this predicate must be added after all the other predicates that capture"):
a pure run of predicates, optionally followed by exhaustiveness predicates
only, none of whose snapshots mention the root matcher's own slot (true for
any matcher built through the C++ API, since `recordNestedMatcher` only ever
records other matcher objects). -/
def tailAllTilable (slot : Nat) : MPreds → Bool
  | .nil => true
  | .cons p ps =>
    p.isTilableCheck && !p.snapshotOf.contains slot && tailAllTilable slot ps

def wfPreds (slot : Nat) : MPreds → Bool
  | .nil => true
  | .cons p ps =>
    if p.isTilableCheck then
      !p.snapshotOf.contains slot && tailAllTilable slot ps
    else pureMPred p && wfPreds slot ps

/-- Contract-following matchers: the own slot is distinct from every nested
matcher's slot (separate C++ objects), and the predicate list is a pure run
followed only by exhaustiveness predicates. -/
def MatcherWF (m : Matcher) : Bool :=
  !(predsSlots m.preds).contains m.slot && wfPreds m.slot m.preds

/-!
A toolkit for reasoning about capture side effects: a run of pure predicates
performs a state-independent list of absolute writes.
-/

inductive Wr where
  | slotW (i : Nat) (v : Option Nat)
  | cellW (i : Nat) (v : Int)

def applyW1 (s : MatchState) : Wr → MatchState
  | .slotW i v => updSlot s i v
  | .cellW i v => writeCell s i v

def applyW (s : MatchState) (W : List Wr) : MatchState := W.foldl applyW1 s

/-- The last slot write to `i` in `W`, if any. -/
def lastSlotW : List Wr → Nat → Option (Option Nat)
  | [], _ => none
  | w :: W, i =>
    match lastSlotW W i with
    | some v => some v
    | none =>
      match w with
      | .slotW j v => if j = i then some v else none
      | _ => none

/-- The last cell write to `i` in `W`, if any. -/
def lastCellW : List Wr → Nat → Option Int
  | [], _ => none
  | w :: W, i =>
    match lastCellW W i with
    | some v => some v
    | none =>
      match w with
      | .cellW j v => if j = i then some v else none
      | _ => none

def slotKeysW (W : List Wr) : List Nat :=
  W.filterMap fun w => match w with | .slotW i _ => some i | _ => none

theorem applyW_nil (s : MatchState) : applyW s [] = s := rfl

theorem applyW_cons (s : MatchState) (w : Wr) (W : List Wr) :
    applyW s (w :: W) = applyW (applyW1 s w) W := rfl

theorem applyW_append (s : MatchState) (W1 W2 : List Wr) :
    applyW s (W1 ++ W2) = applyW (applyW s W1) W2 :=
  List.foldl_append _ _ _ _

theorem updSlot_slots (s : MatchState) (i : Nat) (v : Option Nat) (j : Nat) :
    (updSlot s i v).slots j = if j = i then v else s.slots j := by
  simp [updSlot, Function.update_apply]

theorem updSlot_cells (s : MatchState) (i : Nat) (v : Option Nat) :
    (updSlot s i v).cells = s.cells := rfl

theorem writeCell_slots (s : MatchState) (i : Nat) (v : Int) :
    (writeCell s i v).slots = s.slots := rfl

theorem writeCell_cells (s : MatchState) (i : Nat) (v : Int) (j : Nat) :
    (writeCell s i v).cells j = if j = i then v else s.cells j := by
  simp [writeCell, Function.update_apply]

theorem slots_applyW (W : List Wr) (s : MatchState) (i : Nat) :
    (applyW s W).slots i = (lastSlotW W i).getD (s.slots i) := by
  induction W generalizing s with
  | nil => rfl
  | cons w W ih =>
    rw [applyW_cons, ih]
    cases hW : lastSlotW W i with
    | some v => simp [lastSlotW, hW]
    | none =>
      cases w with
      | slotW j v =>
        by_cases hji : j = i <;>
          simp [lastSlotW, hW, hji, applyW1, updSlot_slots, Ne.symm]
      | cellW j v => simp [lastSlotW, hW, applyW1, writeCell_slots]

theorem cells_applyW (W : List Wr) (s : MatchState) (i : Nat) :
    (applyW s W).cells i = (lastCellW W i).getD (s.cells i) := by
  induction W generalizing s with
  | nil => rfl
  | cons w W ih =>
    rw [applyW_cons, ih]
    cases hW : lastCellW W i with
    | some v => simp [lastCellW, hW]
    | none =>
      cases w with
      | cellW j v =>
        by_cases hji : j = i <;>
          simp [lastCellW, hW, hji, applyW1, writeCell_cells, Ne.symm]
      | slotW j v => simp [lastCellW, hW, applyW1, updSlot_cells]

theorem lastSlotW_mem (W : List Wr) (i : Nat)
    (h : lastSlotW W i ≠ none) : i ∈ slotKeysW W := by
  induction W with
  | nil => simp [lastSlotW] at h
  | cons w W ih =>
    simp only [lastSlotW] at h
    cases hW : lastSlotW W i with
    | some u =>
      have hmem : i ∈ slotKeysW W := ih (by simp [hW])
      cases w <;> simp [slotKeysW, List.filterMap_cons] at hmem ⊢ <;>
        simp_all [slotKeysW]
    | none =>
      rw [hW] at h
      cases w with
      | slotW j u =>
        by_cases hji : j = i
        · subst hji; simp [slotKeysW, List.filterMap_cons]
        · simp [hji] at h
      | cellW j u => simp at h

theorem lastSlotW_of_notin (W : List Wr) (i : Nat) (h : i ∉ slotKeysW W) :
    lastSlotW W i = none := by
  cases hW : lastSlotW W i with
  | none => rfl
  | some v => exact absurd (lastSlotW_mem W i (by simp [hW])) h

theorem slots_applyW_notin (W : List Wr) (s : MatchState) (i : Nat)
    (h : i ∉ slotKeysW W) : (applyW s W).slots i = s.slots i := by
  rw [slots_applyW, lastSlotW_of_notin W i h]; rfl

/-- Re-applying a write list to a state that already holds each written key's
final value is the identity. -/
theorem applyW_reapply (W : List Wr) (t : MatchState)
    (hs : ∀ i v, lastSlotW W i = some v → t.slots i = v)
    (hc : ∀ i v, lastCellW W i = some v → t.cells i = v) :
    applyW t W = t := by
  refine MatchState.ext (funext fun i => ?_) (funext fun i => ?_)
  · rw [slots_applyW]
    cases hW : lastSlotW W i with
    | none => rfl
    | some v => exact (hs i v hW).symm ▸ rfl
  · rw [cells_applyW]
    cases hW : lastCellW W i with
    | none => rfl
    | some v => exact (hc i v hW).symm ▸ rfl

theorem applyW_applyW (W : List Wr) (s : MatchState) :
    applyW (applyW s W) W = applyW s W := by
  refine applyW_reapply W (applyW s W) (fun i v hW => ?_) (fun i v hW => ?_)
  · rw [slots_applyW, hW]; rfl
  · rw [cells_applyW, hW]; rfl

theorem slotKeysW_append (W1 W2 : List Wr) :
    slotKeysW (W1 ++ W2) = slotKeysW W1 ++ slotKeysW W2 := by
  simp [slotKeysW, List.filterMap_append]

mutual

/-- A pure matcher's evaluation is state-independent: one boolean and one
absolute write list (within the matcher's own slots, plus capture cells)
describe it for every starting state. -/
theorem pure_matchOp (g : Graph) (m : Matcher) (opId : Nat)
    (hm : pureMatcher m = true) :
    ∃ b W, slotKeysW W ⊆ matcherSlots m ∧
      ∀ s, Matcher.matchOp g m opId s = (b, applyW s W) := by
  cases m with
  | mk slot preds =>
    have hp : purePreds preds = true := by simpa [pureMatcher] using hm
    by_cases hL : (g.op opId).isLinalg
    · obtain ⟨b, W, hsub, hrun⟩ := pure_runPreds g preds opId hp
      cases hb : b with
      | false =>
        refine ⟨false, W, fun i hi => ?_, fun s => ?_⟩
        · simp only [matcherSlots]
          exact List.mem_cons_of_mem _ (hsub hi)
        · simp [Matcher.matchOp, hL, hrun s, hb]
      | true =>
        refine ⟨true, W ++ [Wr.slotW slot (some opId)], fun i hi => ?_, fun s => ?_⟩
        · rw [slotKeysW_append] at hi
          simp only [matcherSlots]
          rcases List.mem_append.mp hi with h | h
          · exact List.mem_cons_of_mem _ (hsub h)
          · simp [slotKeysW] at h
            subst h
            exact List.mem_cons_self _ _
        · simp [Matcher.matchOp, hL, hrun s, hb, applyW_append, applyW, applyW1]
    · exact ⟨false, [], by simp [slotKeysW],
        fun s => by simp [Matcher.matchOp, hL, applyW]⟩
termination_by (sizeOf m, 0)

theorem pure_runPreds (g : Graph) (ps : MPreds) (opId : Nat)
    (hp : purePreds ps = true) :
    ∃ b W, slotKeysW W ⊆ predsSlots ps ∧
      ∀ s, runPreds g ps opId s = (b, applyW s W) := by
  cases ps with
  | nil => exact ⟨true, [], by simp [slotKeysW], fun s => by simp [runPreds, applyW]⟩
  | cons p ps =>
    have hp1 : pureMPred p = true := by
      simp [purePreds] at hp; exact hp.1
    have hp2 : purePreds ps = true := by
      simp [purePreds] at hp; exact hp.2
    obtain ⟨bp, Wp, hsubp, hrunp⟩ := pure_runPred g p opId hp1
    cases hb : bp with
    | false =>
      refine ⟨false, Wp, fun i hi => ?_, fun s => ?_⟩
      · simp only [predsSlots]
        exact List.mem_append.mpr (Or.inl (hsubp hi))
      · simp [runPreds, hrunp s, hb]
    | true =>
      obtain ⟨b2, W2, hsub2, hrun2⟩ := pure_runPreds g ps opId hp2
      refine ⟨b2, Wp ++ W2, fun i hi => ?_, fun s => ?_⟩
      · rw [slotKeysW_append] at hi
        simp only [predsSlots]
        rcases List.mem_append.mp hi with h | h
        · exact List.mem_append.mpr (Or.inl (hsubp h))
        · exact List.mem_append.mpr (Or.inr (hsub2 h))
      · simp [runPreds, hrunp s, hb, hrun2, applyW_append]
termination_by (sizeOf ps, 0)

theorem pure_runPred (g : Graph) (p : MPred) (opId : Nat)
    (hp : pureMPred p = true) :
    ∃ b W, slotKeysW W ⊆ predSlots p ∧
      ∀ s, runPred g p opId s = (b, applyW s W) := by
  cases p with
  | simple f =>
    exact ⟨evalSimple g f opId, [], by simp [slotKeysW],
      fun s => by simp [runPred, applyW]⟩
  | rankCapture c =>
    exact ⟨true, [Wr.cellW c ((g.op opId).iterTypes.length : Int)],
      by simp [slotKeysW], fun s => by simp [runPred, applyW, applyW1]⟩
  | dimCapture d c =>
    cases hdc : dimCaptureCode (g.op opId).iterTypes.length (g.op opId).loopRanges d with
    | oob => exact ⟨false, [], by simp [slotKeysW], fun s => by simp [runPred, hdc, applyW]⟩
    | fail => exact ⟨false, [], by simp [slotKeysW], fun s => by simp [runPred, hdc, applyW]⟩
    | capture v =>
      exact ⟨true, [Wr.cellW c v], by simp [slotKeysW],
        fun s => by simp [runPred, hdc, applyW, applyW1]⟩
  | inputNested pos m opt =>
    have hm : pureMatcher m = true := by simpa [pureMPred] using hp
    cases hro : resolvedOperand (g.op opId).inputOperands
        (g.op opId).inputOperands.length pos with
    | none => exact ⟨false, [], by simp [slotKeysW], fun s => by simp [runPred, hro, applyW]⟩
    | some v =>
      cases hvd : g.valDef v with
      | none => exact ⟨opt, [], by simp [slotKeysW], fun s => by simp [runPred, hro, hvd, applyW]⟩
      | some d =>
        obtain ⟨bm, Wm, hsubm, hrunm⟩ := pure_matchOp g m d hm
        refine ⟨bm || opt, Wm, fun i hi => ?_, fun s => ?_⟩
        · simpa [predSlots] using hsubm hi
        · simp [runPred, hro, hvd, hrunm s]
  | outputNested pos m opt =>
    have hm : pureMatcher m = true := by simpa [pureMPred] using hp
    cases hro : resolvedOperand (g.op opId).initOperands
        (g.op opId).initOperands.length pos with
    | none => exact ⟨false, [], by simp [slotKeysW], fun s => by simp [runPred, hro, applyW]⟩
    | some v =>
      cases hvd : g.valDef v with
      | none => exact ⟨opt, [], by simp [slotKeysW], fun s => by simp [runPred, hro, hvd, applyW]⟩
      | some d =>
        obtain ⟨bm, Wm, hsubm, hrunm⟩ := pure_matchOp g m d hm
        refine ⟨bm || opt, Wm, fun i hi => ?_, fun s => ?_⟩
        · simpa [predSlots] using hsubm hi
        · simp [runPred, hro, hvd, hrunm s]
  | inputSubset pos m =>
    have hm : pureMatcher m = true := by simpa [pureMPred] using hp
    cases hro : resolvedOperand (g.op opId).inputOperands
        (g.op opId).inputOperands.length pos with
    | none => exact ⟨false, [], by simp [slotKeysW], fun s => by simp [runPred, hro, applyW]⟩
    | some v =>
      cases htr : traverseSubsetsBackwards g g.fuel v with
      | none => exact ⟨false, [], by simp [slotKeysW], fun s => by simp [runPred, hro, htr, applyW]⟩
      | some producer =>
        obtain ⟨bm, Wm, hsubm, hrunm⟩ := pure_matchOp g m producer hm
        refine ⟨bm, Wm, fun i hi => ?_, fun s => ?_⟩
        · simpa [predSlots] using hsubm hi
        · simp [runPred, hro, htr, hrunm s]
  | outputSubset pos m =>
    have hm : pureMatcher m = true := by simpa [pureMPred] using hp
    cases hro : resolvedOperand (g.op opId).initOperands
        (g.op opId).inputOperands.length pos with
    | none => exact ⟨false, [], by simp [slotKeysW], fun s => by simp [runPred, hro, applyW]⟩
    | some v =>
      cases htr : traverseSubsetsBackwards g g.fuel v with
      | none => exact ⟨false, [], by simp [slotKeysW], fun s => by simp [runPred, hro, htr, applyW]⟩
      | some producer =>
        obtain ⟨bm, Wm, hsubm, hrunm⟩ := pure_matchOp g m producer hm
        refine ⟨bm, Wm, fun i hi => ?_, fun s => ?_⟩
        · simpa [predSlots] using hsubm hi
        · simp [runPred, hro, htr, hrunm s]
  | resultNested pos m opt =>
    have hm : pureMatcher m = true := by simpa [pureMPred] using hp
    cases hro : resolvedOperand (g.op opId).results
        (g.op opId).results.length pos with
    | none => exact ⟨false, [], by simp [slotKeysW], fun s => by simp [runPred, hro, applyW]⟩
    | some v =>
      obtain ⟨ba, Wa, hsuba, hruna⟩ :=
        pure_runAnyOf g m ((g.uses v).map Use.owner) hm
      refine ⟨ba || opt, Wa, fun i hi => ?_, fun s => ?_⟩
      · simpa [predSlots] using hsuba hi
      · simp [runPred, hro, hruna s]
  | resultSubset pos m opt =>
    have hm : pureMatcher m = true := by simpa [pureMPred] using hp
    cases hro : resolvedOperand (g.op opId).results
        (g.op opId).results.length pos with
    | none => exact ⟨false, [], by simp [slotKeysW], fun s => by simp [runPred, hro, applyW]⟩
    | some v =>
      cases htr : traverseSubsetsForwardAnyUse g g.fuel v with
      | none => exact ⟨false, [], by simp [slotKeysW], fun s => by simp [runPred, hro, htr, applyW]⟩
      | some user =>
        obtain ⟨bm, Wm, hsubm, hrunm⟩ := pure_matchOp g m user hm
        refine ⟨bm || opt, Wm, fun i hi => ?_, fun s => ?_⟩
        · simpa [predSlots] using hsubm hi
        · simp [runPred, hro, htr, hrunm s]
  | allTilable scopeKind snapshot => simp [pureMPred] at hp
termination_by (sizeOf p, 0)

theorem pure_runAnyOf (g : Graph) (m : Matcher) (us : List Nat)
    (hm : pureMatcher m = true) :
    ∃ b W, slotKeysW W ⊆ matcherSlots m ∧
      ∀ s, runAnyOf g m us s = (b, applyW s W) := by
  cases us with
  | nil => exact ⟨false, [], by simp [slotKeysW], fun s => by simp [runAnyOf, applyW]⟩
  | cons u us =>
    obtain ⟨bm, Wm, hsubm, hrunm⟩ := pure_matchOp g m u hm
    cases hb : bm with
    | true => exact ⟨true, Wm, hsubm, fun s => by simp [runAnyOf, hrunm s, hb]⟩
    | false =>
      obtain ⟨b2, W2, hsub2, hrun2⟩ := pure_runAnyOf g m us hm
      refine ⟨b2, Wm ++ W2, fun i hi => ?_, fun s => ?_⟩
      · rw [slotKeysW_append] at hi
        rcases List.mem_append.mp hi with h | h
        · exact hsubm h
        · exact hsub2 h
      · simp [runAnyOf, hrunm s, hb, hrun2, applyW_append]
termination_by (sizeOf m, 1 + sizeOf us)

end

theorem isTilableCheck_inv (p : MPred) (h : p.isTilableCheck = true) :
    ∃ sk snap, p = MPred.allTilable sk snap := by
  cases p <;> first
    | exact ⟨_, _, rfl⟩
    | simp [MPred.isTilableCheck] at h

theorem predsSlots_append (ps qs : MPreds) :
    predsSlots (MPreds.append ps qs) = predsSlots ps ++ predsSlots qs := by
  cases ps with
  | nil => simp [MPreds.append, predsSlots]
  | cons p ps => simp [MPreds.append, predsSlots, predsSlots_append ps qs]
termination_by sizeOf ps

theorem runPreds_append (g : Graph) (ps qs : MPreds) (opId : Nat) (s : MatchState) :
    runPreds g (MPreds.append ps qs) opId s =
      (if (runPreds g ps opId s).1 then runPreds g qs opId (runPreds g ps opId s).2
       else (false, (runPreds g ps opId s).2)) := by
  cases ps with
  | nil => simp [MPreds.append, runPreds]
  | cons p ps =>
    simp only [MPreds.append, runPreds]
    cases hr : (runPred g p opId s).1 with
    | false => simp [hr]
    | true => simp [hr, runPreds_append g ps qs opId (runPred g p opId s).2]
termination_by sizeOf ps

/-- Every predicate of a `wfPreds` list splits into a pure run followed by a
run of exhaustiveness checks avoiding the root slot. -/
theorem wfPreds_decomp (slot : Nat) (l : MPreds) (h : wfPreds slot l = true) :
    ∃ ps qs, l = MPreds.append ps qs ∧ purePreds ps = true ∧
      tailAllTilable slot qs = true := by
  cases l with
  | nil => exact ⟨.nil, .nil, rfl, by simp [purePreds], by simp [tailAllTilable]⟩
  | cons p ps =>
    cases hat : p.isTilableCheck with
    | true =>
      refine ⟨.nil, .cons p ps, rfl, by simp [purePreds], ?_⟩
      simp [wfPreds, hat] at h
      simp [tailAllTilable, hat, h.1, h.2]
    | false =>
      simp [wfPreds, hat] at h
      obtain ⟨ps', qs, heq, hpure, htail⟩ := wfPreds_decomp slot ps h.2
      exact ⟨.cons p ps', qs, by simp [MPreds.append, heq],
        by simp [purePreds, h.1, hpure], htail⟩
termination_by sizeOf l

/-- Exhaustiveness predicates write nothing, and their outcome is invariant
under changing the root matcher's own slot (their snapshots avoid it). -/
theorem tail_runPreds (g : Graph) (slot : Nat) (qs : MPreds) (opId : Nat)
    (h : tailAllTilable slot qs = true) (s : MatchState) (v : Option Nat) :
    (runPreds g qs opId s).2 = s ∧
    runPreds g qs opId (updSlot s slot v) =
      ((runPreds g qs opId s).1, updSlot s slot v) := by
  cases qs with
  | nil => simp [runPreds]
  | cons p ps =>
    simp only [tailAllTilable, Bool.and_eq_true] at h
    obtain ⟨⟨hat, hns⟩, htail⟩ := h
    obtain ⟨sk, snap, rfl⟩ := isTilableCheck_inv p hat
    have hsnap : slot ∉ snap := by
      have : snap.contains slot = false := by simpa [MPred.snapshotOf] using hns
      simpa using this
    have hmapeq : snap.map (updSlot s slot v).slots = snap.map s.slots := by
      refine List.map_congr_left fun j hj => ?_
      have hjs : j ≠ slot := fun hjeq => hsnap (hjeq ▸ hj)
      simp [updSlot_slots, hjs]
    have hb : runPred g (MPred.allTilable sk snap) opId (updSlot s slot v) =
        ((runPred g (MPred.allTilable sk snap) opId s).1, updSlot s slot v) := by
      simp [runPred, hmapeq]
    obtain ⟨ih1, ih2⟩ := tail_runPreds g slot ps opId htail s v
    constructor
    · simp only [runPreds, runPred]
      cases hc : checkAllTilableMatched g (g.parentOfType opId sk) opId
          (snap.map s.slots) with
      | false => simp
      | true => exact ih1
    · simp only [runPreds, hb, runPred]
      cases hc : checkAllTilableMatched g (g.parentOfType opId sk) opId
          (snap.map s.slots) with
      | false => simp
      | true => simpa using ih2
termination_by sizeOf qs

/-- Claim C7 (amended): idempotence of `match` for a contract-following
matcher — exhaustiveness predicates only at the end of the root predicate
list, never followed by capture-recording predicates — the second of two
back-to-back runs on the same candidate with no intervening reset and no
graph change returns the same boolean and leaves every capture slot and cell
exactly where the first run left them. -/
theorem matchOp_idempotent (g : Graph) (M : Matcher) (opId : Nat) (s : MatchState)
    (hwf : MatcherWF M = true) :
    Matcher.matchOp g M opId (Matcher.matchOp g M opId s).2 =
      Matcher.matchOp g M opId s := by
  cases M with
  | mk slot preds =>
    simp [MatcherWF, Matcher.preds, Matcher.slot] at hwf
    obtain ⟨hns, hwfp⟩ := hwf
    obtain ⟨ps, qs, heq, hpure, htail⟩ := wfPreds_decomp slot preds hwfp
    subst heq
    by_cases hL : (g.op opId).isLinalg
    · obtain ⟨b, W, hsub, hrun⟩ := pure_runPreds g ps opId hpure
      have hWslot : slot ∉ slotKeysW W := by
        intro hmem
        apply hns
        rw [predsSlots_append]
        exact List.mem_append.mpr (Or.inl (hsub hmem))
      have hpost1 : (runPreds g qs opId (applyW s W)).2 = applyW s W :=
        (tail_runPreds g slot qs opId htail (applyW s W) none).1
      obtain ⟨q, hq2⟩ : ∃ q, runPreds g qs opId (applyW s W) = (q, applyW s W) :=
        ⟨(runPreds g qs opId (applyW s W)).1, Prod.ext rfl hpost1⟩
      cases hb : b with
      | false =>
        have hm1 : Matcher.matchOp g (Matcher.mk slot (MPreds.append ps qs)) opId s
            = (false, applyW s W) := by
          simp [Matcher.matchOp, hL, runPreds_append, hrun s, hb]
        have hm2 : Matcher.matchOp g (Matcher.mk slot (MPreds.append ps qs)) opId
            (applyW s W) = (false, applyW s W) := by
          simp [Matcher.matchOp, hL, runPreds_append, hrun (applyW s W), hb,
            applyW_applyW]
        rw [hm1, hm2]
      | true =>
        have hfull1 : runPreds g (MPreds.append ps qs) opId s = (q, applyW s W) := by
          rw [runPreds_append, hrun s, hb]
          simpa using hq2
        cases hq : q with
        | false =>
          have hm1 : Matcher.matchOp g (Matcher.mk slot (MPreds.append ps qs)) opId s
              = (false, applyW s W) := by
            simp [Matcher.matchOp, hL, hfull1, hq]
          have hfull2 : runPreds g (MPreds.append ps qs) opId (applyW s W)
              = (q, applyW s W) := by
            rw [runPreds_append, hrun (applyW s W), hb, applyW_applyW]
            simpa using hq2
          have hm2 : Matcher.matchOp g (Matcher.mk slot (MPreds.append ps qs)) opId
              (applyW s W) = (false, applyW s W) := by
            simp [Matcher.matchOp, hL, hfull2, hq]
          rw [hm1, hm2]
        | true =>
          have hm1 : Matcher.matchOp g (Matcher.mk slot (MPreds.append ps qs)) opId s
              = (true, updSlot (applyW s W) slot (some opId)) := by
            simp [Matcher.matchOp, hL, hfull1, hq]
          have happ : applyW (updSlot (applyW s W) slot (some opId)) W =
              updSlot (applyW s W) slot (some opId) := by
            refine applyW_reapply W _ (fun i v hW => ?_) (fun i v hW => ?_)
            · have hiW : i ∈ slotKeysW W := lastSlotW_mem W i (by simp [hW])
              have his : i ≠ slot := fun hie => hWslot (hie ▸ hiW)
              rw [updSlot_slots]
              simp only [his, if_false]
              rw [slots_applyW, hW]
              rfl
            · rw [updSlot_cells, cells_applyW, hW]
              rfl
          have htail2 : runPreds g qs opId (updSlot (applyW s W) slot (some opId))
              = (true, updSlot (applyW s W) slot (some opId)) := by
            have h2 := (tail_runPreds g slot qs opId htail (applyW s W)
              (some opId)).2
            rw [hq2] at h2
            simpa [hq] using h2
          have hfull2 : runPreds g (MPreds.append ps qs) opId
              (updSlot (applyW s W) slot (some opId))
              = (true, updSlot (applyW s W) slot (some opId)) := by
            rw [runPreds_append, hrun (updSlot (applyW s W) slot (some opId)), hb,
              happ]
            simpa using htail2
          have hupd : updSlot (updSlot (applyW s W) slot (some opId)) slot
              (some opId) = updSlot (applyW s W) slot (some opId) := by
            refine MatchState.ext ?_ rfl
            simp [updSlot, Function.update_idem]
          have hm2 : Matcher.matchOp g (Matcher.mk slot (MPreds.append ps qs)) opId
              (updSlot (applyW s W) slot (some opId)) =
              (true, updSlot (applyW s W) slot (some opId)) := by
            simp [Matcher.matchOp, hL, hfull2, hupd]
          rw [hm1, hm2]
    · simp [Matcher.matchOp, hL]

mutual

/-- Frame property: evaluation never writes a captured-op slot outside the
matcher's own transitive slot set. -/
theorem matchOp_slots_outside (g : Graph) (m : Matcher) (opId : Nat)
    (s : MatchState) (i : Nat) (hi : i ∉ matcherSlots m) :
    ((Matcher.matchOp g m opId s).2).slots i = s.slots i := by
  cases m with
  | mk slot preds =>
    simp only [matcherSlots, List.mem_cons, not_or] at hi
    obtain ⟨hi1, hi2⟩ := hi
    by_cases hL : (g.op opId).isLinalg
    · have hp := runPreds_slots_outside g preds opId s i hi2
      cases hr : (runPreds g preds opId s).1 with
      | true => simp [Matcher.matchOp, hL, hr, updSlot_slots, hi1, hp]
      | false => simp [Matcher.matchOp, hL, hr, hp]
    · simp [Matcher.matchOp, hL]
termination_by (sizeOf m, 0)

theorem runPreds_slots_outside (g : Graph) (ps : MPreds) (opId : Nat)
    (s : MatchState) (i : Nat) (hi : i ∉ predsSlots ps) :
    ((runPreds g ps opId s).2).slots i = s.slots i := by
  cases ps with
  | nil => simp [runPreds]
  | cons p ps =>
    simp only [predsSlots, List.mem_append, not_or] at hi
    obtain ⟨hi1, hi2⟩ := hi
    have hp := runPred_slots_outside g p opId s i hi1
    have hps := runPreds_slots_outside g ps opId (runPred g p opId s).2 i hi2
    cases hr : (runPred g p opId s).1 with
    | true => simp [runPreds, hr, hps, hp]
    | false => simp [runPreds, hr, hp]
termination_by (sizeOf ps, 0)

theorem runPred_slots_outside (g : Graph) (p : MPred) (opId : Nat)
    (s : MatchState) (i : Nat) (hi : i ∉ predSlots p) :
    ((runPred g p opId s).2).slots i = s.slots i := by
  cases p with
  | simple f => simp [runPred]
  | rankCapture c => simp [runPred, writeCell_slots]
  | dimCapture d c =>
    cases hdc : dimCaptureCode (g.op opId).iterTypes.length (g.op opId).loopRanges d with
    | oob => simp [runPred, hdc]
    | fail => simp [runPred, hdc]
    | capture v => simp [runPred, hdc, writeCell_slots]
  | inputNested pos m opt =>
    simp only [predSlots] at hi
    cases hro : resolvedOperand (g.op opId).inputOperands
        (g.op opId).inputOperands.length pos with
    | none => simp [runPred, hro]
    | some v =>
      cases hvd : g.valDef v with
      | none => simp [runPred, hro, hvd]
      | some d => simp [runPred, hro, hvd, matchOp_slots_outside g m d s i hi]
  | outputNested pos m opt =>
    simp only [predSlots] at hi
    cases hro : resolvedOperand (g.op opId).initOperands
        (g.op opId).initOperands.length pos with
    | none => simp [runPred, hro]
    | some v =>
      cases hvd : g.valDef v with
      | none => simp [runPred, hro, hvd]
      | some d => simp [runPred, hro, hvd, matchOp_slots_outside g m d s i hi]
  | inputSubset pos m =>
    simp only [predSlots] at hi
    cases hro : resolvedOperand (g.op opId).inputOperands
        (g.op opId).inputOperands.length pos with
    | none => simp [runPred, hro]
    | some v =>
      cases htr : traverseSubsetsBackwards g g.fuel v with
      | none => simp [runPred, hro, htr]
      | some producer =>
        simp [runPred, hro, htr, matchOp_slots_outside g m producer s i hi]
  | outputSubset pos m =>
    simp only [predSlots] at hi
    cases hro : resolvedOperand (g.op opId).initOperands
        (g.op opId).inputOperands.length pos with
    | none => simp [runPred, hro]
    | some v =>
      cases htr : traverseSubsetsBackwards g g.fuel v with
      | none => simp [runPred, hro, htr]
      | some producer =>
        simp [runPred, hro, htr, matchOp_slots_outside g m producer s i hi]
  | resultNested pos m opt =>
    simp only [predSlots] at hi
    cases hro : resolvedOperand (g.op opId).results
        (g.op opId).results.length pos with
    | none => simp [runPred, hro]
    | some v =>
      simp [runPred, hro,
        runAnyOf_slots_outside g m ((g.uses v).map Use.owner) s i hi]
  | resultSubset pos m opt =>
    simp only [predSlots] at hi
    cases hro : resolvedOperand (g.op opId).results
        (g.op opId).results.length pos with
    | none => simp [runPred, hro]
    | some v =>
      cases htr : traverseSubsetsForwardAnyUse g g.fuel v with
      | none => simp [runPred, hro, htr]
      | some user =>
        simp [runPred, hro, htr, matchOp_slots_outside g m user s i hi]
  | allTilable sk snap => simp [runPred]
termination_by (sizeOf p, 0)

theorem runAnyOf_slots_outside (g : Graph) (m : Matcher) (us : List Nat)
    (s : MatchState) (i : Nat) (hi : i ∉ matcherSlots m) :
    ((runAnyOf g m us s).2).slots i = s.slots i := by
  cases us with
  | nil => simp [runAnyOf]
  | cons u us =>
    have h1 := matchOp_slots_outside g m u s i hi
    have h2 := runAnyOf_slots_outside g m us (Matcher.matchOp g m u s).2 i hi
    cases hr : (Matcher.matchOp g m u s).1 with
    | true => simp [runAnyOf, hr, h1]
    | false => simp [runAnyOf, hr, h2, h1]
termination_by (sizeOf m, 1 + sizeOf us)

end

mutual

/-- `resetCapture` never touches scalar capture cells. -/
theorem resetCapture_cells (m : Matcher) (s : MatchState) :
    (Matcher.resetCapture m s).cells = s.cells := by
  cases m with
  | mk slot preds =>
    simp only [Matcher.resetCapture]
    rw [resetNestedPreds_cells preds (updSlot s slot none)]
    rfl
termination_by sizeOf m

theorem resetNestedPreds_cells (ps : MPreds) (s : MatchState) :
    (MPreds.resetNested ps s).cells = s.cells := by
  cases ps with
  | nil => simp [MPreds.resetNested]
  | cons p ps =>
    simp only [MPreds.resetNested]
    rw [resetNestedPreds_cells ps (MPred.resetNested p s),
      resetNestedPred_cells p s]
termination_by sizeOf ps

theorem resetNestedPred_cells (p : MPred) (s : MatchState) :
    (MPred.resetNested p s).cells = s.cells := by
  cases p <;> simp only [MPred.resetNested] <;>
    first
      | rfl
      | exact resetCapture_cells _ _
termination_by sizeOf p

end

mutual

/-- `resetCapture` clears exactly the matcher's transitive slot set. -/
theorem resetCapture_slots (m : Matcher) (s : MatchState) (i : Nat) :
    (Matcher.resetCapture m s).slots i =
      if i ∈ matcherSlots m then none else s.slots i := by
  cases m with
  | mk slot preds =>
    simp only [Matcher.resetCapture, matcherSlots]
    rw [resetNestedPreds_slots preds (updSlot s slot none) i]
    by_cases hp : i ∈ predsSlots preds
    · simp [hp]
    · by_cases hs : i = slot
      · simp [hp, hs, updSlot_slots]
      · simp [hp, hs, updSlot_slots]
termination_by sizeOf m

theorem resetNestedPreds_slots (ps : MPreds) (s : MatchState) (i : Nat) :
    (MPreds.resetNested ps s).slots i =
      if i ∈ predsSlots ps then none else s.slots i := by
  cases ps with
  | nil => simp [MPreds.resetNested, predsSlots]
  | cons p ps =>
    simp only [MPreds.resetNested, predsSlots]
    rw [resetNestedPreds_slots ps (MPred.resetNested p s) i,
      resetNestedPred_slots p s i]
    by_cases hps : i ∈ predsSlots ps
    · simp [hps]
    · by_cases hp : i ∈ predSlots p
      · simp [hps, hp]
      · simp [hps, hp]
termination_by sizeOf ps

theorem resetNestedPred_slots (p : MPred) (s : MatchState) (i : Nat) :
    (MPred.resetNested p s).slots i =
      if i ∈ predSlots p then none else s.slots i := by
  cases p <;> simp only [MPred.resetNested, predSlots] <;>
    first
      | simp
      | exact resetCapture_slots _ _ _
termination_by sizeOf p

end

/-!
The match-result carrier `MatchCallbackResult` (TransformMatchers.h lines
491-530, TransformMatchers.cpp lines 412-421): a flat list of payload
operations, segmented by a parallel list of group lengths.
-/

structure MatchCallbackResult where
  payloadOperations : List Nat := []
  payloadGroupLengths : List Nat := []
deriving DecidableEq, Repr

def getNumPayloadGroups (r : MatchCallbackResult) : Nat :=
  r.payloadGroupLengths.length

/-- `getPayloadGroup`: sum the lengths of the groups before `position`, then
slice that many operations starting there. -/
def getPayloadGroup (r : MatchCallbackResult) (position : Nat) : List Nat :=
  (r.payloadOperations.drop ((r.payloadGroupLengths.take position).sum)).take
    (r.payloadGroupLengths.getD position 0)

/-- `addPayloadGroup`: append the operations to the flat list and record the
number appended as a new group length. -/
def addPayloadGroup (r : MatchCallbackResult) (operations : List Nat) :
    MatchCallbackResult :=
  { payloadOperations := r.payloadOperations ++ operations
    payloadGroupLengths := r.payloadGroupLengths ++ [operations.length] }

/-- `addPotentiallyEmptyPayloadGroup`: a singleton group for a non-null op,
an empty group for null. -/
def addPotentiallyEmptyPayloadGroup (r : MatchCallbackResult)
    (op : Option Nat) : MatchCallbackResult :=
  match op with
  | none => addPayloadGroup r []
  | some o => addPayloadGroup r [o]

/-- The carrier's structural invariant: the group lengths tile the flat
operation list exactly. It holds for the empty carrier and is preserved by
`addPayloadGroup`. -/
def MatchCallbackResultWf (r : MatchCallbackResult) : Prop :=
  r.payloadGroupLengths.sum = r.payloadOperations.length

theorem sum_take_getD_le (L : List Nat) (i : Nat) (h : i < L.length) :
    (L.take i).sum + L.getD i 0 ≤ L.sum := by
  induction L generalizing i with
  | nil => simp at h
  | cons a L ih =>
    cases i with
    | zero => simp
    | succ i =>
      simp only [List.take_succ_cons, List.sum_cons, List.getD_cons_succ]
      have := ih i (by simpa using h)
      omega

theorem addPayloadGroup_spec (r : MatchCallbackResult) (ops : List Nat)
    (hwf : MatchCallbackResultWf r) :
    getNumPayloadGroups (addPayloadGroup r ops) = getNumPayloadGroups r + 1 ∧
    getPayloadGroup (addPayloadGroup r ops) (getNumPayloadGroups r) = ops ∧
    (∀ i, i < getNumPayloadGroups r →
      getPayloadGroup (addPayloadGroup r ops) i = getPayloadGroup r i) ∧
    MatchCallbackResultWf (addPayloadGroup r ops) := by
  obtain ⟨O, L⟩ := r
  simp only [MatchCallbackResultWf] at hwf
  refine ⟨by simp [getNumPayloadGroups, addPayloadGroup], ?_, ?_, ?_⟩
  · simp only [getPayloadGroup, getNumPayloadGroups, addPayloadGroup]
    rw [List.take_left, hwf, List.drop_left]
    simp [List.getD_eq_getElem?_getD, List.getElem?_append_right]
  · intro i hik
    simp only [getNumPayloadGroups] at hik
    simp only [getPayloadGroup, getNumPayloadGroups, addPayloadGroup]
    rw [List.take_append_of_le_length (le_of_lt hik),
      List.getD_append _ _ _ _ hik]
    have hle : (L.take i).sum + L.getD i 0 ≤ O.length := by
      rw [← hwf]; exact sum_take_getD_le L i hik
    rw [List.drop_append_of_le_length (by omega),
      List.take_append_of_le_length (by rw [List.length_drop]; omega)]
  · simp only [MatchCallbackResultWf, addPayloadGroup]
    simp [hwf]

/-!
Concrete fixtures used to evaluate the embedding on specific graphs, and the
claim theorems.
-/

def baseGraph : Graph where
  op := fun _ => {}
  valDef := fun _ => none
  valParentOp := fun _ => none
  uses := fun _ => []
  tag := fun _ => OpTag.other
  foreachTiedVal := fun _ _ => 0
  foreachOutArgs := fun _ => []
  foreachTiedIdx := fun _ _ => 0
  sliceSource := fun _ => 0
  sliceResult := fun _ => 0
  valElemBitWidth := fun _ => none
  singleCombinerOk := fun _ _ => false
  parentOfType := fun _ _ => none
  tilableIn := fun _ => []
  fuel := 9

/-- The all-clear starting state: no matcher has captured, all cells zero. -/
def initState : MatchState where
  slots := fun _ => none
  cells := fun _ => 0

/-- A matcher with no predicates: accepts any structured (linalg) op. -/
def mTriv : Matcher := .mk 5 .nil

/-- Claim C3 (code bug): the spec requires every dimension predicate to fail
(return false) on an out-of-range resolved index, and the list-based
shape/iterator variants indeed do; but `dim(-3, DivisibleBy(2))` and
`dim(-3, CaptureStaticValue)` on a rank-2 op resolve the index to -1, miss
the negative-index guard and index `getStaticLoopRanges()` out of bounds
instead of returning false. -/
theorem dim_negative_index_code_divergence :
    dimDivisibleByCode 2 [4, 4] (-3) 2 = none ∧
    dimCaptureCode 2 [4, 4] (-3) = DimCapResult.oob ∧
    dimShapeCheck [4, 4] [-3] ShapeKind.Static = false ∧
    dimIterCheck [IterTy.parallel, IterTy.parallel] [-3] IterTy.parallel = false := by
  refine ⟨?_, ?_, ?_, ?_⟩ <;> decide

/-- Claim C4: the predicate attached by `allTilableOpsCaptured` succeeds
exactly when the candidate has an enclosing parent of the scope kind and the
cardinality of the set holding the candidate together with the non-null
captured ops of the snapshotted nested matchers equals the number of tileable
ops walked in that parent; it fails when no parent exists. It reads but never
writes the state. -/
theorem allTilable_characterization (g : Graph) (sk : Nat) (snap : List Nat)
    (opId : Nat) (s : MatchState) :
    ((runPred g (MPred.allTilable sk snap) opId s).1 = true ↔
      ∃ parent, g.parentOfType opId sk = some parent ∧
        (g.tilableIn parent).length =
          (insert opId ((snap.filterMap s.slots).toFinset)).card) ∧
    (runPred g (MPred.allTilable sk snap) opId s).2 = s := by
  constructor
  · simp only [runPred, checkAllTilableMatched]
    cases hpar : g.parentOfType opId sk with
    | none => simp
    | some parent =>
      have hmap : (snap.map s.slots).filterMap id = snap.filterMap s.slots := by
        rw [List.filterMap_map]
        rfl
      have hcard : (insert opId ((snap.filterMap s.slots).toFinset)).card =
          (opId :: snap.filterMap s.slots).dedup.length := by
        rw [← List.toFinset_cons]
        rfl
      simp [hmap, hcard, hpar]
  · simp [runPred]

/-- Claim C10: `dim(AllDims(), kind)` and `dim(AllDimsExcept({}), kind)` add
extensionally equal predicates (the former delegates to the latter), and both
hold exactly when every iteration-space dimension has the given iterator
type, vacuously on a rank-0 op. -/
theorem allDims_allDimsExcept_equiv (tys : List IterTy) (k : IterTy) :
    dimAllDimsIterPred tys k = dimAllDimsExceptIterPred tys [] k ∧
    (dimAllDimsIterPred tys k = true ↔ ∀ ty ∈ tys, ty = k) := by
  refine ⟨rfl, ?_⟩
  have hall : ∀ n : Nat, ((List.enumFrom n tys).all fun it => decide (it.2 = k)) =
      tys.all fun t => decide (t = k) := by
    induction tys with
    | nil => intro n; rfl
    | cons t tys ih =>
      intro n
      simp only [List.enumFrom, List.all_cons, ih (n + 1)]
  simp only [dimAllDimsIterPred, dimAllDimsExceptIterPred, List.map_nil,
    List.enum]
  rw [show (fun it : Nat × IterTy =>
      (List.contains ([] : List Int) (it.1 : Int) || decide (it.2 = k))) =
      (fun it : Nat × IterTy => decide (it.2 = k)) from ?_]
  · rw [hall 0, List.all_eq_true]
    constructor
    · intro h ty hty
      simpa using h ty hty
    · intro h ty hty
      simpa using h ty hty
  · funext it
    simp [List.contains]

/-- Claim C9: appending an optional payload group adds exactly one group at
index k (a singleton when the op is non-null, empty when null), increments the
group count, and leaves all earlier groups unchanged. -/
theorem addPotentiallyEmptyPayloadGroup_spec (r : MatchCallbackResult)
    (op : Option Nat) (hwf : MatchCallbackResultWf r) :
    getNumPayloadGroups (addPotentiallyEmptyPayloadGroup r op) =
      getNumPayloadGroups r + 1 ∧
    getPayloadGroup (addPotentiallyEmptyPayloadGroup r op)
      (getNumPayloadGroups r) = op.toList ∧
    ∀ i, i < getNumPayloadGroups r →
      getPayloadGroup (addPotentiallyEmptyPayloadGroup r op) i =
        getPayloadGroup r i := by
  cases op with
  | none =>
    obtain ⟨h1, h2, h3, _⟩ := addPayloadGroup_spec r [] hwf
    exact ⟨h1, h2, h3⟩
  | some o =>
    obtain ⟨h1, h2, h3, _⟩ := addPayloadGroup_spec r [o] hwf
    exact ⟨h1, h2, h3⟩

def rC9 : MatchCallbackResult where
  payloadOperations := [5, 7]
  payloadGroupLengths := [1, 1]

/-- Concrete instance of the optional-payload-group theorem. -/
theorem addPotentiallyEmptyPayloadGroup_spec_witness :
    getNumPayloadGroups (addPotentiallyEmptyPayloadGroup rC9 (some 9)) =
      getNumPayloadGroups rC9 + 1 ∧
    getPayloadGroup (addPotentiallyEmptyPayloadGroup rC9 (some 9))
      (getNumPayloadGroups rC9) = (some 9).toList ∧
    getPayloadGroup (addPotentiallyEmptyPayloadGroup rC9 (some 9)) 0 =
      getPayloadGroup rC9 0 :=
  ⟨(addPotentiallyEmptyPayloadGroup_spec rC9 (some 9) (by unfold MatchCallbackResultWf; decide)).1,
   (addPotentiallyEmptyPayloadGroup_spec rC9 (some 9)
     (by unfold MatchCallbackResultWf; decide)).2.1,
   (addPotentiallyEmptyPayloadGroup_spec rC9 (some 9)
     (by unfold MatchCallbackResultWf; decide)).2.2 0 (by decide)⟩

/-- Scenario: a single structured op (id 0) of rank 3; the matcher captures
the rank into cell 0. -/
def gC1 : Graph :=
  { baseGraph with
    op := fun _ =>
      { isLinalg := true
        iterTypes := [IterTy.parallel, IterTy.parallel, IterTy.parallel] } }

def mC1 : Matcher := .mk 0 (.cons (.rankCapture 0) .nil)

/-- Claim C1 counterexample: after a successful match wrote capture cell 0,
`resetCapture` nulls the captured slot but the capture cell still holds the
rank 3, not its pre-match value 0 — the cell is not restored to its pre-match
state. -/
theorem resetCapture_cell_counterexample :
    (Matcher.matchOp gC1 mC1 0 initState).1 = true ∧
    getCaptured mC1 (Matcher.resetCapture mC1
      (Matcher.matchOp gC1 mC1 0 initState).2) = none ∧
    initState.cells 0 = 0 ∧
    (Matcher.resetCapture mC1
      (Matcher.matchOp gC1 mC1 0 initState).2).cells 0 = 3 := by
  have h : Matcher.matchOp gC1 mC1 0 initState =
      (true, updSlot (writeCell initState 0 3) 0 (some 0)) := by
    simp [Matcher.matchOp, runPreds, runPred, gC1, mC1]
  refine ⟨by rw [h], ?_, rfl, ?_⟩
  · rw [h, getCaptured, resetCapture_slots]
    simp [mC1, matcherSlots, Matcher.slot]
  · rw [h, resetCapture_cells]
    simp [updSlot, writeCell, initState]

/-- Claim C1 (amended): after `resetCapture`, `getCaptured()` is null and so
is the captured slot of every transitively nested matcher; scalar capture
cells are left untouched (they keep whatever the last evaluation wrote, they
are not restored to a pre-match state). -/
theorem resetCapture_amended (m : Matcher) (s : MatchState) :
    getCaptured m (Matcher.resetCapture m s) = none ∧
    (∀ i, i ∈ matcherSlots m → (Matcher.resetCapture m s).slots i = none) ∧
    (Matcher.resetCapture m s).cells = s.cells := by
  refine ⟨?_, fun i hi => ?_, resetCapture_cells m s⟩
  · rw [getCaptured, resetCapture_slots]
    have hm : m.slot ∈ matcherSlots m := by
      cases m with
      | mk slot preds => simp [matcherSlots, Matcher.slot]
    simp [hm]
  · rw [resetCapture_slots]
    simp [hi]

/-- Concrete instance of the amended reset theorem. -/
theorem resetCapture_amended_witness :
    getCaptured mC1 (Matcher.resetCapture mC1 initState) = none ∧
    (Matcher.resetCapture mC1 initState).slots 0 = none ∧
    (Matcher.resetCapture mC1 initState).cells = initState.cells :=
  ⟨(resetCapture_amended mC1 initState).1,
   (resetCapture_amended mC1 initState).2.1 0
     (by simp [mC1, matcherSlots, predsSlots, predSlots]),
   (resetCapture_amended mC1 initState).2.2⟩

/-- Claim C5: with the resolved input position in bounds, the predicate added
by `input(pos, matcher, optional)` returns the optional flag when the operand
has no defining op (state untouched), and otherwise always runs the nested
matcher — its capture writes land in the final state — succeeding exactly
when the nested match succeeds or the match is optional. -/
theorem input_nested_semantics (g : Graph) (pos : Int) (m : Matcher)
    (opt : Bool) (opId v : Nat) (s : MatchState)
    (hv : resolvedOperand (g.op opId).inputOperands
      (g.op opId).inputOperands.length pos = some v) :
    (g.valDef v = none →
      runPred g (MPred.inputNested pos m opt) opId s = (opt, s)) ∧
    (∀ d, g.valDef v = some d →
      (runPred g (MPred.inputNested pos m opt) opId s).2 =
        (Matcher.matchOp g m d s).2 ∧
      ((runPred g (MPred.inputNested pos m opt) opId s).1 = true ↔
        ((Matcher.matchOp g m d s).1 = true ∨ opt = true))) := by
  constructor
  · intro hnd
    simp [runPred, hv, hnd]
  · intro d hd
    constructor
    · simp [runPred, hv, hd]
    · simp [runPred, hv, hd, Bool.or_eq_true]

/-- Scenario: op 0 has one input operand (value 20) that is a block argument
(no defining op). -/
def gC5 : Graph :=
  { baseGraph with
    op := fun _ => { isLinalg := true, inputOperands := [20] } }

/-- Concrete instance of the optional-input theorem: no producer, optional
match succeeds without touching the state. -/
theorem input_nested_semantics_witness :
    runPred gC5 (MPred.inputNested 0 mTriv true) 0 initState =
      (true, initState) :=
  (input_nested_semantics gC5 0 mTriv true 0 20 initState
    (by unfold gC5 baseGraph resolvedOperand resolvePos; decide)).1 rfl

/-- Claim C6: when `match` fails, the matcher's own captured slot is exactly
what it was before the call; it is overwritten (with the candidate) only on
success. The hypothesis that the matcher's own slot is distinct from all
nested matchers' slots reflects that distinct C++ matcher objects have
distinct `captured` fields. -/
theorem match_failure_leaves_capture (g : Graph) (M : Matcher) (opId : Nat)
    (s : MatchState) (hdisj : M.slot ∉ predsSlots M.preds) :
    ((Matcher.matchOp g M opId s).1 = false →
      ((Matcher.matchOp g M opId s).2).slots M.slot = s.slots M.slot) ∧
    ((Matcher.matchOp g M opId s).1 = true →
      ((Matcher.matchOp g M opId s).2).slots M.slot = some opId) := by
  cases M with
  | mk slot preds =>
    simp only [Matcher.slot, Matcher.preds] at hdisj ⊢
    by_cases hL : (g.op opId).isLinalg
    · have hout := runPreds_slots_outside g preds opId s slot hdisj
      cases hr : (runPreds g preds opId s).1 with
      | false =>
        constructor
        · intro _
          simp [Matcher.matchOp, hL, hr, hout]
        · intro habs
          simp [Matcher.matchOp, hL, hr] at habs
      | true =>
        constructor
        · intro habs
          simp [Matcher.matchOp, hL, hr] at habs
        · intro _
          simp [Matcher.matchOp, hL, hr, updSlot_slots]
    · constructor
      · intro _
        simp [Matcher.matchOp, hL]
      · intro habs
        simp [Matcher.matchOp, hL] at habs

/-- A matcher that requires rank at least 5 and would capture: fails on the
rank-3 op of `gC1`, leaving the previously captured slot value intact. -/
def mC6 : Matcher := .mk 2 (.cons (.simple (.rankGE 5)) .nil)

/-- Concrete instance of the failure-keeps-capture theorem: matching a rank-3
op against a rank-ge-5 matcher from a state where slot 2 held op 7 fails and
keeps slot 2 at op 7. -/
theorem match_failure_leaves_capture_witness :
    ((Matcher.matchOp gC1 mC6 0 (updSlot initState 2 (some 7))).1 = false →
      ((Matcher.matchOp gC1 mC6 0 (updSlot initState 2 (some 7))).2).slots
        (Matcher.slot mC6) = (updSlot initState 2 (some 7)).slots
        (Matcher.slot mC6)) ∧
    ((Matcher.matchOp gC1 mC6 0 (updSlot initState 2 (some 7))).1 = true →
      ((Matcher.matchOp gC1 mC6 0 (updSlot initState 2 (some 7))).2).slots
        (Matcher.slot mC6) = some 0) :=
  match_failure_leaves_capture gC1 mC6 0 (updSlot initState 2 (some 7))
    (by simp [mC6, Matcher.slot, Matcher.preds, predsSlots, predSlots])

/-- Scenario for the output-subset position bug: op 0 has one input and two
init (output) operands; the second init operand (value 22) is produced by
structured op 3, which the trivial matcher accepts. -/
def gC2 : Graph :=
  { baseGraph with
    op := fun n =>
      if n = 0 then
        { isLinalg := true
          inputOperands := [20]
          initOperands := [21, 22] }
      else { isLinalg := true }
    valDef := fun v => if v = 22 then some 3 else none }

/-- Claim C2 (code bug): `output(1, SubsetOf(m))` on an op with 1 input and 2
outputs. Position 1 names a valid output operand whose backward-traversed
producer (op 3) the nested matcher accepts, yet the predicate rejects:
the code resolves and bounds-checks the position against `getNumDpsInputs`
(1) instead of the output arity (2), so `1 >= 1` fails the check before the
init operand is ever consulted. -/
theorem outputSubset_code_divergence :
    runPred gC2 (MPred.outputSubset 1 mTriv) 0 initState = (false, initState) ∧
    (gC2.op 0).initOperands.length = 2 ∧
    resolvePos 1 (gC2.op 0).initOperands.length = 1 ∧
    traverseSubsetsBackwards gC2 gC2.fuel 22 = some 3 ∧
    Matcher.matchOp gC2 mTriv 3 initState =
      (true, updSlot initState 5 (some 3)) := by
  refine ⟨?_, by simp [gC2], by simp [gC2, resolvePos], ?_, ?_⟩
  · have hro : resolvedOperand (gC2.op 0).initOperands
        (gC2.op 0).inputOperands.length 1 = none := by
      simp [gC2, resolvedOperand, resolvePos]
    simp [runPred, hro]
  · simp [gC2, baseGraph, traverseSubsetsBackwards]
  · simp [Matcher.matchOp, runPreds, mTriv, gC2]

/-- Scenario for subset traversal: real producer op 1 defines value 20;
extract_slice ops 4 and 5 form a two-view chain 20 -> 22 -> 23; value 20 is
also used only as the tied shared-output operand (index 0) of the
single-output foreach_thread op 2, whose output block argument 21 feeds the
real consumer op 3. -/
def gC8 : Graph :=
  { baseGraph with
    tag := fun n =>
      if n = 2 then OpTag.foreachThread
      else if n = 4 ∨ n = 5 then OpTag.extractSlice
      else OpTag.other
    valDef := fun v =>
      if v = 20 then some 1
      else if v = 22 then some 4
      else if v = 23 then some 5
      else none
    valParentOp := fun v => if v = 21 then some 2 else none
    uses := fun v =>
      if v = 20 then [⟨2, 0⟩]
      else if v = 21 then [⟨3, 0⟩]
      else []
    foreachOutArgs := fun n => if n = 2 then [21] else []
    foreachTiedIdx := fun _ _ => 0
    foreachTiedVal := fun _ _ => 20
    sliceSource := fun n => if n = 5 then 22 else 20 }

/-- Claim C8 (code bug): backward traversal through the two extract_slice
views correctly reaches the real producer op 1, but forward traversal from
the producer's result stops at the foreach_thread op itself — a transparent
subset-like op — instead of following the tie through block argument 21 to
the real consumer op 3. The code's `find_if` looks for a block argument whose
tied operand is *not* the current use (`!=` where the tie-following intent
needs `==`), finds none in the single-output loop, and returns the loop op. -/
theorem forward_traversal_tie_divergence :
    traverseSubsetsBackwards gC8 9 23 = some 1 ∧
    traverseSubsetsForwardAnyUse gC8 9 20 = some 2 ∧
    gC8.tag 2 = OpTag.foreachThread ∧
    gC8.tag 3 = OpTag.other ∧
    (gC8.uses 21).map Use.owner = [3] := by
  refine ⟨?_, ?_, by simp [gC8], by simp [gC8], by simp [gC8]⟩
  · simp [gC8, baseGraph, traverseSubsetsBackwards]
  · simp [gC8, baseGraph, traverseSubsetsForwardAnyUse, forwardUses,
      List.find?]

/-- Nested matcher for the idempotence counterexample: accepts ops of kind 7
(a `m_StructuredOp<linalg::FillOp>()`-style kind filter), capturing into
slot 1. -/
def mC7A : Matcher := .mk 1 (.cons (.simple (.isaOp [7])) .nil)

/-- Root matcher of the idempotence counterexample, the embedding of
`m_StructuredOp().input(0, A, OptionalMatch()).allTilableOpsCaptured<Scope>()
.output(0, A)` — legal under the C++ API (`allTilableOpsCaptured` snapshots
the nested list, here `[A]`, i.e. slot 1), but violating the documented
add-the-exhaustiveness-predicate-last contract because `output(0, A)`
records a capturing matcher after it. -/
def mC7 : Matcher :=
  .mk 0 (.cons (.inputNested 0 mC7A true)
    (.cons (.allTilable 9 [1])
      (.cons (.outputNested 0 mC7A false) .nil)))

/-- Scenario: candidate op 0 (kind 0) with input operand 20 produced by op 4
(kind 5, rejected by `mC7A`) and init operand 21 produced by op 6 (kind 7,
accepted by `mC7A`); the scope parent 100 of op 0 contains exactly one
tileable op, op 0 itself — op 6 lies outside it. -/
def gC7 : Graph :=
  { baseGraph with
    op := fun n =>
      if n = 0 then
        { isLinalg := true
          kindTag := 0
          inputOperands := [20]
          initOperands := [21] }
      else if n = 4 then { isLinalg := true, kindTag := 5 }
      else if n = 6 then { isLinalg := true, kindTag := 7 }
      else {}
    valDef := fun v =>
      if v = 20 then some 4 else if v = 21 then some 6 else none
    parentOfType := fun n k => if n = 0 ∧ k = 9 then some 100 else none
    tilableIn := fun p => if p = 100 then [0] else [] }

/-- Claim C7 counterexample: two back-to-back `match` calls on the same
candidate with no intervening reset and no graph change disagree. The first
call passes the exhaustiveness check (nested slot 1 still empty when it runs)
and then captures op 6 into slot 1 via the later `output(0, A)` predicate;
the second call re-reads slot 1 = op 6 in the exhaustiveness check, counts
two matched ops against one tileable op, and fails. -/
theorem match_idempotence_counterexample :
    (Matcher.matchOp gC7 mC7 0 initState).1 = true ∧
    (Matcher.matchOp gC7 mC7 0 (Matcher.matchOp gC7 mC7 0 initState).2).1 =
      false := by
  have hA4 : ∀ s, Matcher.matchOp gC7 mC7A 4 s = (false, s) := fun s => by
    simp [Matcher.matchOp, runPreds, runPred, evalSimple, mC7A, gC7]
  have hA6 : ∀ s, Matcher.matchOp gC7 mC7A 6 s = (true, updSlot s 1 (some 6)) :=
    fun s => by
    simp [Matcher.matchOp, runPreds, runPred, evalSimple, mC7A, gC7]
  have hro20 : resolvedOperand (gC7.op 0).inputOperands
      (gC7.op 0).inputOperands.length 0 = some 20 := by
    simp [gC7, resolvedOperand, resolvePos]
  have hro21 : resolvedOperand (gC7.op 0).initOperands
      (gC7.op 0).initOperands.length 0 = some 21 := by
    simp [gC7, resolvedOperand, resolvePos]
  have hP1 : ∀ s, runPred gC7 (MPred.inputNested 0 mC7A true) 0 s = (true, s) :=
    fun s => by
    simp [runPred, hro20, show gC7.valDef 20 = some 4 by simp [gC7], hA4 s]
  have hP3 : ∀ s, runPred gC7 (MPred.outputNested 0 mC7A false) 0 s =
      (true, updSlot s 1 (some 6)) := fun s => by
    simp [runPred, hro21, show gC7.valDef 21 = some 6 by simp [gC7], hA6 s]
  have hP2a : runPred gC7 (MPred.allTilable 9 [1]) 0 initState =
      (true, initState) := by
    simp only [runPred]
    rw [show checkAllTilableMatched gC7 (gC7.parentOfType 0 9) 0
      ([1].map initState.slots) = true from by decide]
  have hrun1 : Matcher.matchOp gC7 mC7 0 initState =
      (true, updSlot (updSlot initState 1 (some 6)) 0 (some 0)) := by
    simp [Matcher.matchOp, runPreds, mC7, hP1 initState, hP2a,
      hP3 initState, show (gC7.op 0).isLinalg = true by simp [gC7]]
  have hP2b : runPred gC7 (MPred.allTilable 9 [1]) 0
      (updSlot (updSlot initState 1 (some 6)) 0 (some 0)) =
      (false, updSlot (updSlot initState 1 (some 6)) 0 (some 0)) := by
    simp only [runPred]
    rw [show checkAllTilableMatched gC7 (gC7.parentOfType 0 9) 0
      ([1].map (updSlot (updSlot initState 1 (some 6)) 0 (some 0)).slots) =
      false from by decide]
  have hrun2 : Matcher.matchOp gC7 mC7 0
      (updSlot (updSlot initState 1 (some 6)) 0 (some 0)) =
      (false, updSlot (updSlot initState 1 (some 6)) 0 (some 0)) := by
    simp [Matcher.matchOp, runPreds, mC7,
      hP1 (updSlot (updSlot initState 1 (some 6)) 0 (some 0)), hP2b,
      show (gC7.op 0).isLinalg = true by simp [gC7]]
  rw [hrun1]
  simp [hrun2]

/-- A contract-following matcher: pure predicates (one of them capturing),
then the exhaustiveness predicate last (snapshot of nested slot 5). -/
def mC7wf : Matcher :=
  .mk 0 (.cons (.simple (.rankGE 1))
    (.cons (.rankCapture 2) (.cons (.allTilable 9 [5]) .nil)))

/-- Concrete instance of the idempotence theorem. -/
theorem matchOp_idempotent_witness :
    Matcher.matchOp gC1 mC7wf 0 (Matcher.matchOp gC1 mC7wf 0 initState).2 =
      Matcher.matchOp gC1 mC7wf 0 initState :=
  matchOp_idempotent gC1 mC7wf 0 initState
    (by simp [MatcherWF, Matcher.preds, Matcher.slot, mC7wf, predsSlots,
      predSlots, wfPreds, tailAllTilable, pureMPred, MPred.isTilableCheck,
      MPred.snapshotOf])
